import Mathlib

/-!
Verification of the `zzzzzzzzzzz` transaction-ledger engine.

This file shallowly embeds the Rust sources:
  * `src/common/zz_amount.rs`   — fixed-point amounts (`ZzAmount<BigInt>` / `ZzAmount<BigUint>`);
  * `src/domain/transaction.rs` — the transaction state machine (`produce_effect`,
    `insert_transaction`);
  * `src/domain/client_balance.rs` — the balance ledger (`process_tx_effect`);
  * `src/parsers/nom/zz_amount.rs` — the amount grammar (`parse_zzamount_inner`);
  * `src/parsers/csv_parser.rs` — the chunked streaming loop
    (`csv_zztx_parser_streaming`).

Unbounded `BigInt`/`BigUint` become `Int`/`Nat`; the `u32` decimal field becomes `Nat`
(no claim exercises values anywhere near `2^32`, and all validated decimals stay below
`20000` throughout the arithmetic).  Rust `String`s are modelled as `List Char`; Rust
panics become `Except String`.
-/

/-- `ZzAmount<BigInt>` (`ZzIAmount`): signed integer part plus a decimal field scaled by
10000 (from `src/common/zz_amount.rs`). -/
structure ZzIAmount where
  integer : Int
  decimal : Nat
deriving DecidableEq, Repr

/-- `ZzAmount<BigUint>` (`ZzUAmount`): unsigned variant. -/
structure ZzUAmount where
  integer : Nat
  decimal : Nat
deriving DecidableEq, Repr

/-- `ZzAmount::validate_inner`: `(0..10000).contains(decimal)` — the Rust `Range` is
half-open, so exactly `10000` is rejected. -/
def validate_inner (decimal : Nat) : Bool :=
  decide (0 ≤ decimal ∧ decimal < 10000)

/-- `ZzAmount::<BigInt>::new(integer, decimal)`. -/
def ZzIAmount.new (integer : Int) (decimal : Nat) : Option ZzIAmount :=
  if validate_inner decimal then some ⟨integer, decimal⟩ else none

/-- `ZzAmount::<BigUint>::new(integer, decimal)`. -/
def ZzUAmount.new (integer : Nat) (decimal : Nat) : Option ZzUAmount :=
  if validate_inner decimal then some ⟨integer, decimal⟩ else none

/-- `ZzUAmount::to_i_amount`: lossless unsigned→signed widening. -/
def ZzUAmount.to_i_amount (a : ZzUAmount) : ZzIAmount :=
  ⟨(a.integer : Int), a.decimal⟩

/-- `ZzIAmount::zero()`. -/
def ZzIAmount.zero : ZzIAmount := ⟨0, 0⟩

/-- `ZzIAmount::add` (`self.decimal += other.decimal; if self.validate() { .. } else
{ self.decimal -= 10_000; self.integer += &other.integer + 1 }`). -/
def ZzIAmount.add (a b : ZzIAmount) : ZzIAmount :=
  let d := a.decimal + b.decimal
  if validate_inner d then
    ⟨a.integer + b.integer, d⟩
  else
    ⟨a.integer + (b.integer + 1), d - 10000⟩

/-- `ZzIAmount::sub` (borrow from the integer part when `self.decimal < other.decimal`). -/
def ZzIAmount.sub (a b : ZzIAmount) : ZzIAmount :=
  if a.decimal < b.decimal then
    ⟨a.integer - (b.integer + 1), a.decimal + 10000 - b.decimal⟩
  else
    ⟨a.integer - b.integer, a.decimal - b.decimal⟩

/-- `ZzIAmount::greater_eq_than`: the gate used for withdrawals.  Mirrors the source
verbatim: when the sign is not `Minus`, the result is
`self.integer >= other || (self.integer == other && self.decimal >= other.decimal)`. -/
def ZzIAmount.greater_eq_than (a : ZzIAmount) (b : ZzUAmount) : Bool :=
  if ¬ a.integer < 0 then
    decide ((b.integer : Int) ≤ a.integer) ||
      (decide (a.integer = (b.integer : Int)) && decide (b.decimal ≤ a.decimal))
  else
    false

/-- The scaled value a signed amount pair stands for under `add`/`sub`
(`integer * 10000 + decimal`). -/
def zzval (a : ZzIAmount) : Int := a.integer * 10000 + (a.decimal : Int)

/-- The scaled value of an unsigned amount. -/
def uval (a : ZzUAmount) : Nat := a.integer * 10000 + a.decimal

/-! ### Decimal rendering (`impl Display for ZzAmount`, `src/common/zz_amount.rs`) -/

/-- The character for one decimal digit (`0 ↦ '0'`, …, `9 ↦ '9'`). -/
def charOfDigit (d : Nat) : Char := Char.ofNat (48 + d)

/-- Fuel-driven base-10 rendering of a natural number, most significant digit first.
The fuel only bounds the recursion depth; `natChars` supplies enough of it. -/
def natCharsAux : Nat → Nat → List Char
  | 0, _ => []
  | fuel + 1, n =>
    if n < 10 then [charOfDigit n]
    else natCharsAux fuel (n / 10) ++ [charOfDigit (n % 10)]

/-- The standard decimal rendering of a `Nat` (what `BigUint: Display` prints). -/
def natChars (n : Nat) : List Char := natCharsAux (n + 1) n

/-- The decimal rendering of an `Int` (what `BigInt: Display` prints): a leading `'-'`
for negative values, then the magnitude. -/
def intChars (i : Int) : List Char :=
  if i < 0 then '-' :: natChars i.natAbs else natChars i.toNat

/-- `"{:0>4}"`: left-pad the decimal field's rendering with `'0'` to width 4. -/
def pad4 (d : Nat) : List Char :=
  List.replicate (4 - (natChars d).length) '0' ++ natChars d

/-- `impl Display for ZzAmount` over the signed variant: `integer` alone when
`decimal == 0`, otherwise `integer`, `'.'`, and the 4-digit zero-padded decimal. -/
def displayChars (a : ZzIAmount) : List Char :=
  if a.decimal = 0 then intChars a.integer
  else intChars a.integer ++ '.' :: pad4 a.decimal

/-- Modelled from the spec: the numeric (scaled) value that the sign-magnitude decimal
numeral rendered by `Display` denotes — `-(|integer|*10000 + decimal)` when the printed
integer part is negative, `integer*10000 + decimal` otherwise. -/
def displayDenote (i : Int) (d : Nat) : Int :=
  if i < 0 then -((-i) * 10000 + (d : Int)) else i * 10000 + (d : Int)

/-! ### Basic facts about the rendering -/

/-- The value of a digit character. -/
def digitVal (c : Char) : Nat := c.toNat - 48

/-- The number denoted by a most-significant-first digit string. -/
def digitsToNat (s : List Char) : Nat :=
  s.foldl (fun a c => 10 * a + digitVal c) 0

theorem digitsToNat_append (s t : List Char) :
    digitsToNat (s ++ t) = t.foldl (fun a c => 10 * a + digitVal c) (digitsToNat s) := by
  simp [digitsToNat, List.foldl_append]

theorem digitVal_charOfDigit {d : Nat} (h : d < 10) : digitVal (charOfDigit d) = d := by
  interval_cases d <;> decide

theorem isDigit_charOfDigit {d : Nat} (h : d < 10) : (charOfDigit d).isDigit = true := by
  interval_cases d <;> decide

theorem natCharsAux_spec :
    ∀ fuel n, n ≤ fuel →
      (∀ c ∈ natCharsAux (fuel + 1) n, c.isDigit = true) ∧
      digitsToNat (natCharsAux (fuel + 1) n) = n ∧
      natCharsAux (fuel + 1) n ≠ [] := by
  intro fuel
  induction fuel using Nat.strong_induction_on with
  | _ fuel ih =>
    intro n hn
    by_cases h10 : n < 10
    · refine ⟨?_, ?_, ?_⟩ <;> simp [natCharsAux, h10, digitsToNat, digitVal_charOfDigit,
        isDigit_charOfDigit, h10]
    · have hfuel : 1 ≤ fuel := by omega
      obtain ⟨fuel', rfl⟩ : ∃ f, fuel = f + 1 := ⟨fuel - 1, by omega⟩
      have hdiv : n / 10 ≤ fuel' := by
        have : n / 10 < n := Nat.div_lt_self (by omega) (by omega)
        omega
      have IH := ih fuel' (by omega) (n / 10) hdiv
      have hmod : n % 10 < 10 := Nat.mod_lt _ (by omega)
      refine ⟨?_, ?_, ?_⟩
      · intro c hc
        rw [show natCharsAux (fuel' + 1 + 1) n
              = natCharsAux (fuel' + 1) (n / 10) ++ [charOfDigit (n % 10)] by
            simp [natCharsAux, h10]] at hc
        rcases List.mem_append.mp hc with h | h
        · exact IH.1 c h
        · simp at h
          subst h
          exact isDigit_charOfDigit hmod
      · rw [show natCharsAux (fuel' + 1 + 1) n
              = natCharsAux (fuel' + 1) (n / 10) ++ [charOfDigit (n % 10)] by
            simp [natCharsAux, h10]]
        rw [digitsToNat_append, IH.2.1]
        simp [digitVal_charOfDigit hmod]
        omega
      · rw [show natCharsAux (fuel' + 1 + 1) n
              = natCharsAux (fuel' + 1) (n / 10) ++ [charOfDigit (n % 10)] by
            simp [natCharsAux, h10]]
        simp

theorem natChars_digits (n : Nat) : ∀ c ∈ natChars n, c.isDigit = true :=
  (natCharsAux_spec n n le_rfl).1

theorem digitsToNat_natChars (n : Nat) : digitsToNat (natChars n) = n :=
  (natCharsAux_spec n n le_rfl).2.1

theorem natChars_ne_nil (n : Nat) : natChars n ≠ [] :=
  (natCharsAux_spec n n le_rfl).2.2

/-! ### Transaction domain (`src/domain/transaction.rs`, `src/domain/client_balance.rs`) -/

/-- `ZzTxType`: the five record types; only deposits and withdrawals carry an amount. -/
inductive ZzTxType where
  | Withdrawal (amount : ZzUAmount)
  | Deposit (amount : ZzUAmount)
  | Dispute
  | Resolve
  | Chargeback
deriving DecidableEq, Repr

/-- `ZzTx`: a transaction record (`client_id` is a `u16`, `tx_id` a `u32`). -/
structure ZzTx where
  type : ZzTxType
  client_id : Nat
  tx_id : Nat
deriving DecidableEq, Repr

/-- `TransactionState`: the per-`(client, tx)` ledger entry. -/
inductive TransactionState where
  | Deposit (amount : ZzUAmount)
  | Withdrawal
  | Dispute (amount : ZzUAmount)
  | Locked
deriving DecidableEq, Repr

/-- `ZzTxEffect`: the balance mutation a valid transaction produces
(`Some true` = increase by `amount`, `Some false` = decrease, `None` = unchanged). -/
structure ZzTxEffect where
  amount : ZzUAmount
  available : Option Bool
  held : Option Bool
  locked : Bool
deriving DecidableEq, Repr

/-- `ZzClientBalance`. -/
structure ZzClientBalance where
  client_id : Nat
  available : ZzIAmount
  held : ZzIAmount
  total : ZzIAmount
  locked : Bool
deriving DecidableEq, Repr

/-- `produce_effect` (`src/domain/transaction.rs`): given the current ledger entry for
`(client_id, tx_id)`, the incoming record and the current balance, decide the new entry
state and the effect, or reject. -/
def produce_effect (cur : Option TransactionState) (tx : ZzTx)
    (balance : Option ZzClientBalance) : Option (TransactionState × ZzTxEffect) :=
  let balance_available := balance.map (·.available)
  match cur with
  | some cur =>
    match cur, tx.type with
    | .Deposit zz_uint, .Dispute =>
      some (.Dispute zz_uint, ⟨zz_uint, some false, some true, false⟩)
    | .Dispute zz_uint, .Resolve =>
      some (.Deposit zz_uint, ⟨zz_uint, some true, some false, false⟩)
    | .Dispute zz_uint, .Chargeback =>
      some (.Locked, ⟨zz_uint, none, some false, true⟩)
    | _, _ => none
  | none =>
    match tx.type with
    | .Withdrawal zz_uint =>
      if balance_available.elim false (fun available => available.greater_eq_than zz_uint) then
        some (.Withdrawal, ⟨zz_uint, some false, none, false⟩)
      else
        none
    | .Deposit zz_uint =>
      some (.Deposit zz_uint, ⟨zz_uint, some true, none, false⟩)
    | _ => none

/-- The transaction map of `TransactionHashMapImpl`, as an association list whose most
recent insertion wins on lookup. -/
abbrev TxMap := List ((Nat × Nat) × TransactionState)

/-- `HashMap::get` on the association-list model. -/
def txLookup (m : TxMap) (k : Nat × Nat) : Option TransactionState :=
  (List.find? (fun e => e.1 = k) m).map (·.2)

/-- `HashMap::insert` on the association-list model (newest entry shadows older ones). -/
def txInsert (m : TxMap) (k : Nat × Nat) (v : TransactionState) : TxMap :=
  ((k, v) :: m : List _)

/-- `TransactionHashMapImpl::insert_transaction`: run `produce_effect` on the stored
entry; on success commit the new state and hand back the effect. -/
def insert_transaction (m : TxMap) (tx : ZzTx) (balance : Option ZzClientBalance) :
    Option ZzTxEffect × TxMap :=
  match produce_effect (txLookup m (tx.client_id, tx.tx_id)) tx balance with
  | none => (none, m)
  | some (state, effect) => (some effect, txInsert m (tx.client_id, tx.tx_id) state)

/-- `ZzClientBalance::process_tx_effect`.  The leading `assert!(!self.locked, ..)`
panic is modelled as `Except.error`. -/
def process_tx_effect (b : ZzClientBalance) (effect : ZzTxEffect) :
    Except String ZzClientBalance :=
  if b.locked then
    .error "Called process tx effect with locked Balance"
  else
    let amount := effect.amount.to_i_amount
    let apply := fun (inc : Bool) (cur : ZzIAmount) =>
      if inc then cur.add amount else cur.sub amount
    let b := { b with available := (effect.available.map (apply · b.available)).getD b.available }
    let b := { b with held := (effect.held.map (apply · b.held)).getD b.held }
    .ok { b with locked := b.locked || effect.locked }

/-- `ZzClientBalance::compute_total`: `total = available + held`. -/
def compute_total (b : ZzClientBalance) : ZzClientBalance :=
  { b with total := b.available.add b.held }

/-! ### Arithmetic facts about `add`/`sub` -/

theorem zzval_add (a b : ZzIAmount) : zzval (a.add b) = zzval a + zzval b := by
  obtain ⟨ai, ad⟩ := a
  obtain ⟨bi, bd⟩ := b
  simp only [ZzIAmount.add, zzval, validate_inner]
  split <;> rename_i h <;> simp only [decide_eq_true_eq] at h <;> dsimp only <;> omega

theorem zzval_sub (a b : ZzIAmount) (h : b.decimal ≤ 10000) :
    zzval (a.sub b) = zzval a - zzval b := by
  obtain ⟨ai, ad⟩ := a
  obtain ⟨bi, bd⟩ := b
  dsimp only at h
  simp only [ZzIAmount.sub, zzval]
  split <;> rename_i hc <;> dsimp only <;> omega

theorem add_sub_cancel_zz (a b : ZzIAmount) (ha : a.decimal < 10000) :
    (a.add b).sub b = a := by
  obtain ⟨ai, ad⟩ := a
  obtain ⟨bi, bd⟩ := b
  dsimp only at ha
  simp only [ZzIAmount.add, ZzIAmount.sub, validate_inner]
  split <;> rename_i h1 <;> dsimp only <;> split <;> rename_i h2 <;>
    simp only [decide_eq_true_eq] at h1 h2 <;> simp only [ZzIAmount.mk.injEq] <;>
    refine ⟨by omega, by omega⟩

theorem sub_add_cancel_zz (a b : ZzIAmount) (ha : a.decimal < 10000)
    (hb : b.decimal ≤ 10000) : (a.sub b).add b = a := by
  obtain ⟨ai, ad⟩ := a
  obtain ⟨bi, bd⟩ := b
  dsimp only at ha hb
  simp only [ZzIAmount.add, ZzIAmount.sub, validate_inner]
  split <;> rename_i h1 <;> dsimp only <;> split <;> rename_i h2 <;>
    simp only [decide_eq_true_eq] at h1 h2 <;> simp only [ZzIAmount.mk.injEq] <;>
    refine ⟨by omega, by omega⟩

/-- C9: `add` then `sub` of the same operand is the identity, exactly, for signed
amounts whose fractional fields are below 10000. -/
theorem claim_C9_add_sub_identity (a b : ZzIAmount)
    (ha : a.decimal < 10000) (_hb : b.decimal < 10000) :
    (a.add b).sub b = a :=
  add_sub_cancel_zz a b ha

theorem claim_C9_add_sub_identity_witness :
    ((ZzIAmount.mk 10 5000).add ⟨3, 2500⟩).sub ⟨3, 2500⟩ = ⟨10, 5000⟩ :=
  claim_C9_add_sub_identity ⟨10, 5000⟩ ⟨3, 2500⟩ (by decide) (by decide)

/-! ### C6 — the constructor boundary -/

/-- C6 (amended): `new` succeeds exactly when the fractional-unit field is strictly
below 10000 — so `new(i, 10000)` fails for every integer `i`, for both variants. -/
theorem claim_C6_new_boundary :
    (∀ (i : Int) (d : Nat), (ZzIAmount.new i d).isSome ↔ d < 10000) ∧
    (∀ (n : Nat) (d : Nat), (ZzUAmount.new n d).isSome ↔ d < 10000) ∧
    (∀ i : Int, ZzIAmount.new i 10000 = none) ∧
    (∀ n : Nat, ZzUAmount.new n 10000 = none) := by
  refine ⟨fun i d => ?_, fun n d => ?_, fun i => ?_, fun n => ?_⟩ <;>
    simp [ZzIAmount.new, ZzUAmount.new, validate_inner]

/-- C6 counterexample: contrary to the claim, `new(1, 10000)` does not succeed (this is
the repository's own `test_invalid_decimal` expectation). -/
theorem claim_C6_counterexample :
    ZzIAmount.new 1 10000 = none ∧ (ZzIAmount.new 1 10000).isSome = false := by
  decide

theorem claim_C6_new_boundary_witness :
    (ZzIAmount.new 3 9999).isSome = true ∧ (ZzUAmount.new 3 10000).isSome = false := by
  refine ⟨(claim_C6_new_boundary.1 3 9999).mpr (by omega), ?_⟩
  cases hc : (ZzUAmount.new 3 10000).isSome
  · rfl
  · exact absurd ((claim_C6_new_boundary.2.1 3 10000).mp hc) (by omega)

/-! ### C5 — the pair semantics of `add`/`sub` versus `Display` -/

/-- C5: the `(integer, decimal)` pair behaves under `add`/`sub` as the scaled value
`integer*10000 + decimal`; `zero().sub(1.5000)` yields the pair `(-2, 5000)`, which
`Display` renders as the string `-2.5000`; and for every pair with negative integer part
and nonzero decimal field the rendered sign-magnitude numeral denotes a value different
from the pair's arithmetic value. -/
theorem claim_C5_sub_display_mismatch :
    (∀ a b : ZzIAmount, b.decimal ≤ 10000 →
        zzval (a.add b) = zzval a + zzval b ∧ zzval (a.sub b) = zzval a - zzval b) ∧
    ZzIAmount.zero.sub ⟨1, 5000⟩ = ⟨-2, 5000⟩ ∧
    displayChars ⟨-2, 5000⟩ = "-2.5000".toList ∧
    (∀ (i : Int) (d : Nat), i < 0 → d ≠ 0 →
        displayDenote i d ≠ zzval ⟨i, d⟩) := by
  refine ⟨fun a b hb => ⟨zzval_add a b, zzval_sub a b hb⟩, by decide, by decide, ?_⟩
  intro i d hi hd
  simp only [displayDenote, zzval, if_pos hi]
  omega

theorem claim_C5_sub_display_mismatch_witness :
    displayDenote (-2) 5000 ≠ zzval ⟨-2, 5000⟩ :=
  claim_C5_sub_display_mismatch.2.2.2 (-2) 5000 (by decide) (by decide)

/-! ### C7 — dispute/resolve and dispute/chargeback -/

theorem zzval_to_i (a : ZzUAmount) : zzval a.to_i_amount = (uval a : Int) := by
  simp [zzval, uval, ZzUAmount.to_i_amount]

/-- C7: from an entry `Deposited(amt)` on an unlocked, well-formed balance, the dispute
effect followed by the resolve effect restores `available` and `held` exactly; the
dispute effect followed by the chargeback effect leaves `available` at its post-dispute
value, lowers `held` by exactly `amt` (in scaled value), and sets `locked`. -/
theorem claim_C7_dispute_resolve_chargeback
    (b : ZzClientBalance) (amt : ZzUAmount) (cid tid : Nat)
    (hlock : b.locked = false) (hamt : amt.decimal < 10000)
    (hav : b.available.decimal < 10000) (hheld : b.held.decimal < 10000) :
    ∃ st1 eff1 b1,
      produce_effect (some (.Deposit amt)) ⟨.Dispute, cid, tid⟩ (some b) = some (st1, eff1) ∧
      process_tx_effect b eff1 = .ok b1 ∧
      (∃ st2 eff2 b2,
        produce_effect (some st1) ⟨.Resolve, cid, tid⟩ (some b1) = some (st2, eff2) ∧
        process_tx_effect b1 eff2 = .ok b2 ∧
        b2.available = b.available ∧ b2.held = b.held) ∧
      (∃ st3 eff3 b3,
        produce_effect (some st1) ⟨.Chargeback, cid, tid⟩ (some b1) = some (st3, eff3) ∧
        process_tx_effect b1 eff3 = .ok b3 ∧
        b3.available = b1.available ∧
        zzval b3.held = zzval b1.held - (uval amt : Int) ∧
        b3.locked = true) := by
  refine ⟨.Dispute amt, ⟨amt, some false, some true, false⟩,
    { b with available := b.available.sub amt.to_i_amount,
             held := b.held.add amt.to_i_amount, locked := false }, rfl, ?_, ?_, ?_⟩
  · simp [process_tx_effect, hlock]
  · refine ⟨.Deposit amt, ⟨amt, some true, some false, false⟩,
      { b with available := (b.available.sub amt.to_i_amount).add amt.to_i_amount,
               held := (b.held.add amt.to_i_amount).sub amt.to_i_amount,
               locked := false }, rfl, ?_, ?_, ?_⟩
    · simp [process_tx_effect]
    · exact sub_add_cancel_zz b.available amt.to_i_amount hav (le_of_lt hamt)
    · exact add_sub_cancel_zz b.held amt.to_i_amount hheld
  · refine ⟨.Locked, ⟨amt, none, some false, true⟩,
      { b with available := b.available.sub amt.to_i_amount,
               held := (b.held.add amt.to_i_amount).sub amt.to_i_amount,
               locked := true }, rfl, ?_, rfl, ?_, rfl⟩
    · simp [process_tx_effect]
    · rw [zzval_sub (b.held.add amt.to_i_amount) amt.to_i_amount (le_of_lt hamt),
        zzval_to_i]

theorem claim_C7_dispute_resolve_chargeback_witness :
    ∃ st1 eff1 b1,
      produce_effect (some (.Deposit ⟨7, 2500⟩)) ⟨.Dispute, 1, 9⟩
          (some ⟨1, ⟨10, 0⟩, ⟨0, 0⟩, ⟨0, 0⟩, false⟩) = some (st1, eff1) ∧
      process_tx_effect ⟨1, ⟨10, 0⟩, ⟨0, 0⟩, ⟨0, 0⟩, false⟩ eff1 = .ok b1 ∧
      (∃ st2 eff2 b2,
        produce_effect (some st1) ⟨.Resolve, 1, 9⟩ (some b1) = some (st2, eff2) ∧
        process_tx_effect b1 eff2 = .ok b2 ∧
        b2.available = ZzIAmount.mk 10 0 ∧ b2.held = ZzIAmount.mk 0 0) ∧
      (∃ st3 eff3 b3,
        produce_effect (some st1) ⟨.Chargeback, 1, 9⟩ (some b1) = some (st3, eff3) ∧
        process_tx_effect b1 eff3 = .ok b3 ∧
        b3.available = b1.available ∧
        zzval b3.held = zzval b1.held - (uval ⟨7, 2500⟩ : Int) ∧
        b3.locked = true) :=
  claim_C7_dispute_resolve_chargeback ⟨1, ⟨10, 0⟩, ⟨0, 0⟩, ⟨0, 0⟩, false⟩ ⟨7, 2500⟩ 1 9
    (by decide) (by decide) (by decide) (by decide)

/-! ### C1 — the withdrawal gate -/

/-- C1 evaluated at the failing input: `greater_eq_than` returns `true` for
`5.0000 ≥? 5.5000` although the scaled value `50000` is strictly below `55000`; hence
a withdrawal of `5.5000` against an available balance of `5.0000` (and no prior entry)
succeeds, and applying its effect drives `available` to the pair `(-1, 5000)`. -/
theorem claim_C1_gate_counterexample :
    ZzIAmount.greater_eq_than ⟨5, 0⟩ ⟨5, 5000⟩ = true ∧
    zzval ⟨5, 0⟩ < (uval ⟨5, 5000⟩ : Int) ∧
    produce_effect none ⟨.Withdrawal ⟨5, 5000⟩, 1, 7⟩
        (some ⟨1, ⟨5, 0⟩, ⟨0, 0⟩, ⟨0, 0⟩, false⟩) =
      some (.Withdrawal, ⟨⟨5, 5000⟩, some false, none, false⟩) ∧
    process_tx_effect ⟨1, ⟨5, 0⟩, ⟨0, 0⟩, ⟨0, 0⟩, false⟩ ⟨⟨5, 5000⟩, some false, none, false⟩ =
      .ok ⟨1, ⟨-1, 5000⟩, ⟨0, 0⟩, ⟨0, 0⟩, false⟩ := by
  refine ⟨by decide, by decide, rfl, rfl⟩


/-! ### The amount grammar (`src/parsers/nom/zz_amount.rs`) -/

/-- The three per-category strictness policies (`ParsingStrictnessOptions`,
`src/lib.rs`). -/
inductive ParsingStrictnessOptions where
  | Fail
  | Allow
  | Ignore
deriving DecidableEq, Repr

/-- `ParsingStrictnessOptions::fail()`. -/
def ParsingStrictnessOptions.fail : ParsingStrictnessOptions → Bool
  | .Fail => true
  | _ => false

/-- `ZzParseOptions` (`src/lib.rs`). -/
structure ZzParseOptions where
  zz_amount_max_size : Nat
  on_missing_field : ParsingStrictnessOptions
  on_excessive_field : ParsingStrictnessOptions
  on_parse_error : ParsingStrictnessOptions
  max_line_width : Nat
deriving DecidableEq, Repr

/-- The `Default` impl of `ZzParseOptions`: max 200 integer digits, all three policies
`Fail`, max line width 4096. -/
def defaultOpts : ZzParseOptions := ⟨200, .Fail, .Fail, .Fail, 4096⟩

/-- nom's two error levels: recoverable `Err::Error` versus aborting `Err::Failure`. -/
inductive NomErr where
  | recoverable
  | failure
deriving DecidableEq, Repr

/-- nom's `take_while_m_n(_, m, p)` consumption: take matching characters, at most `m`. -/
def takeUpTo : Nat → (Char → Bool) → List Char → List Char
  | 0, _, _ => []
  | _ + 1, _, [] => []
  | m + 1, p, c :: rest => if p c then c :: takeUpTo m p rest else []

/-- `opt(alt((char('+'), char('-'))))`: the optional leading sign. -/
def nomSign (input : List Char) : Option Char × List Char :=
  match input with
  | c :: rest => if c = '+' || c = '-' then (some c, rest) else (none, input)
  | [] => (none, input)

/-- `opt(preceded(char('.'), digit1))`: the optional fractional digit run.  When the
dot is present but no digit follows, `digit1` fails and `opt` backtracks, leaving the
dot unconsumed. -/
def nomDecimalSplit (input : List Char) : Option (List Char) × List Char :=
  match input with
  | '.' :: rest =>
    let ds := rest.takeWhile Char.isDigit
    if ds.isEmpty then (none, input) else (some ds, rest.drop ds.length)
  | _ => (none, input)

/-- The conversion of the optional fractional digit run to fractional units:
`d.split_at_checked(4)` keeps the first 4 characters when there are at least 4,
otherwise `format!("{d:0<4}")` right-pads the run with `'0'` to width 4. -/
def nomDecimalValue (decimal_opt : Option (List Char)) : Nat :=
  match decimal_opt with
  | some d =>
    if 4 ≤ d.length then digitsToNat (d.take 4)
    else digitsToNat (d ++ List.replicate (4 - d.length) '0')
  | none => 0

/-- `parse_zzamount_inner` (`src/parsers/nom/zz_amount.rs`): optional sign; an integer
digit run read through `take_while_m_n(1, zz_amount_max_size + 1, ..)` (no digit at all
is a recoverable error, strictly more than `zz_amount_max_size` digits is a hard
`Failure`); then the optional fractional part.  `allowNeg` distinguishes the `BigInt`
instantiation (negation available) from the `BigUint` one, whose `unary()` returns
`None` and turns a `'-'` sign into a `Failure`. -/
def parse_zzamount_inner (allowNeg : Bool) (opts : ZzParseOptions)
    (initial_input : List Char) : Except NomErr (List Char × Int × Nat) :=
  let sign := (nomSign initial_input).1
  let input := (nomSign initial_input).2
  let int_str := takeUpTo (opts.zz_amount_max_size + 1) Char.isDigit input
  if int_str.length < 1 then .error .recoverable
  else if opts.zz_amount_max_size < int_str.length then .error .failure
  else
    let input := input.drop int_str.length
    let decimal_opt := (nomDecimalSplit input).1
    let input := (nomDecimalSplit input).2
    if sign = some '-' && !allowNeg then .error .failure
    else
      let int : Int :=
        if sign = some '-' then -(digitsToNat int_str : Int) else (digitsToNat int_str : Int)
      .ok (input, int, nomDecimalValue decimal_opt)

/-! ### Parsing lemmas -/

theorem takeWhile_eq_self_of_all {p : Char → Bool} :
    ∀ {l : List Char}, (∀ c ∈ l, p c = true) → l.takeWhile p = l := by
  intro l
  induction l with
  | nil => intro _; rfl
  | cons c rest ih =>
    intro h
    have hc := h c (List.mem_cons_self c rest)
    simp [List.takeWhile_cons, hc, ih fun x hx => h x (List.mem_cons_of_mem c hx)]

theorem takeUpTo_append_all {p : Char → Bool} :
    ∀ (A : List Char) (m : Nat) (B : List Char),
      (∀ c ∈ A, p c = true) → A.length ≤ m →
      (∀ c, B.head? = some c → p c = false) →
      takeUpTo m p (A ++ B) = A := by
  intro A
  induction A with
  | nil =>
    intro m B _ _ hB
    cases m with
    | zero => rfl
    | succ m =>
      cases B with
      | nil => rfl
      | cons c rest =>
        simp only [List.nil_append, takeUpTo, hB c rfl, Bool.false_eq_true, if_false]
  | cons a A' ih =>
    intro m B hA hlen hB
    obtain ⟨m', rfl⟩ : ∃ m', m = m' + 1 := ⟨m - 1, by simp at hlen; omega⟩
    have ha := hA a (List.mem_cons_self a A')
    simp only [List.cons_append, takeUpTo, ha, if_true]
    show a :: takeUpTo m' p (A' ++ B) = a :: A'
    rw [ih m' B (fun c hc => hA c (List.mem_cons_of_mem a hc)) (by simp at hlen ⊢; omega) hB]

theorem digitsToNat_append_zeros (A : List Char) (k : Nat) :
    digitsToNat (A ++ List.replicate k '0') = digitsToNat A * 10 ^ k := by
  induction k with
  | zero => simp [digitsToNat]
  | succ k ih =>
    rw [List.replicate_succ' k '0', ← List.append_assoc, digitsToNat_append]
    simp only [List.foldl_cons, List.foldl_nil]
    rw [ih]
    simp [digitVal]
    ring

/-! ### C3 — fractional-digit handling -/

/-- C3 counterexample: the fractional string `"1"` is right-padded, so `"0.1"` parses
to 1000 fractional units, not to the claimed 1 unit (this matches the repository's own
`test_zzamount_decimal` expectation for `"0.1"`). -/
theorem claim_C3_counterexample :
    parse_zzamount_inner true defaultOpts "0.1".toList = .ok ([], 0, 1000) ∧
    (1000 : Nat) ≠ 1 :=
  ⟨rfl, by decide⟩

/-- C3 (amended): for a nonempty all-digit fractional run `ds` after the `'.'`, the
grammar yields the value of the first 4 characters when `ds` has 4 or more digits
(truncation, no rounding), and the right-zero-padded value `digitsToNat ds * 10 ^
(4 - |ds|)` when it has fewer — short runs are NOT taken as-is. -/
theorem claim_C3_fractional_padding (opts : ZzParseOptions) (ds : List Char)
    (hmax : 1 ≤ opts.zz_amount_max_size)
    (hds : ∀ c ∈ ds, c.isDigit = true) (hne : ds ≠ []) :
    parse_zzamount_inner true opts ('0' :: '.' :: ds) =
      .ok ([], 0,
        if 4 ≤ ds.length then digitsToNat (ds.take 4)
        else digitsToNat ds * 10 ^ (4 - ds.length)) := by
  have hsign : nomSign ('0' :: '.' :: ds) = (none, '0' :: '.' :: ds) := rfl
  have h0 : takeUpTo (opts.zz_amount_max_size + 1) Char.isDigit ('0' :: '.' :: ds)
      = ['0'] := by
    have := @takeUpTo_append_all Char.isDigit ['0'] (opts.zz_amount_max_size + 1)
      ('.' :: ds) (by decide) (by simp) (fun c hc => by
        simp at hc
        subst hc
        decide)
    simpa using this
  have hdec : nomDecimalSplit ('.' :: ds) = (some ds, []) := by
    simp only [nomDecimalSplit, takeWhile_eq_self_of_all hds]
    have hem : ds.isEmpty = false := by
      cases ds with
      | nil => exact absurd rfl hne
      | cons a l => rfl
    simp [hem, List.drop_length]
  have hdv : ((digitsToNat ['0'] : Nat) : Int) = 0 := by decide
  simp only [parse_zzamount_inner, hsign, h0]
  norm_num
  simp only [hdec, nomDecimalValue]
  rw [if_neg (show ¬ opts.zz_amount_max_size = 0 by omega)]
  by_cases h4 : 4 ≤ ds.length
  · simp [h4, digitsToNat, digitVal]
  · simp only [h4, if_false]
    rw [digitsToNat_append_zeros]
    simp [digitsToNat, digitVal]

theorem claim_C3_fractional_padding_witness :
    parse_zzamount_inner true defaultOpts ('0' :: '.' :: "12".toList) =
      .ok ([], 0, digitsToNat "12".toList * 10 ^ 2) :=
  claim_C3_fractional_padding defaultOpts "12".toList (by decide) (by decide) (by decide)

/-! ### C8 — display/parse round-trip -/

theorem natCharsAux_irrel :
    ∀ n f1 f2, n < f1 → n < f2 → natCharsAux f1 n = natCharsAux f2 n := by
  intro n
  induction n using Nat.strong_induction_on with
  | _ n ih =>
    intro f1 f2 h1 h2
    obtain ⟨g1, rfl⟩ : ∃ g, f1 = g + 1 := ⟨f1 - 1, by omega⟩
    obtain ⟨g2, rfl⟩ : ∃ g, f2 = g + 1 := ⟨f2 - 1, by omega⟩
    by_cases h10 : n < 10
    · simp [natCharsAux, h10]
    · have hlt : n / 10 < n := Nat.div_lt_self (by omega) (by omega)
      simp only [natCharsAux, h10, if_false]
      rw [ih (n / 10) hlt g1 g2 (by omega) (by omega)]

theorem natChars_ge_ten (n : Nat) (h : 10 ≤ n) :
    natChars n = natChars (n / 10) ++ [charOfDigit (n % 10)] := by
  have hlt : n / 10 < n := Nat.div_lt_self (by omega) (by omega)
  show natCharsAux (n + 1) n = _
  rw [show natCharsAux (n + 1) n
      = natCharsAux n (n / 10) ++ [charOfDigit (n % 10)] by
    simp [natCharsAux, show ¬ n < 10 by omega]]
  rw [natCharsAux_irrel (n / 10) n (n / 10 + 1) (by omega) (by omega)]
  rfl

theorem natChars_length_le :
    ∀ n k, 1 ≤ k → n < 10 ^ k → (natChars n).length ≤ k := by
  intro n
  induction n using Nat.strong_induction_on with
  | _ n ih =>
    intro k hk hn
    by_cases h10 : n < 10
    · have : natChars n = [charOfDigit n] := by simp [natChars, natCharsAux, h10]
      simp [this]
      omega
    · have hk2 : 2 ≤ k := by
        by_contra hcon
        have : k = 1 := by omega
        subst this
        simp at hn
        omega
      have hdivlt : n / 10 < n := Nat.div_lt_self (by omega) (by omega)
      have hdiv : n / 10 < 10 ^ (k - 1) := by
        rw [Nat.div_lt_iff_lt_mul (by omega)]
        calc n < 10 ^ k := hn
        _ = 10 ^ (k - 1) * 10 := by
            rw [← pow_succ]
            congr 1
            omega
      rw [natChars_ge_ten n (by omega)]
      have := ih (n / 10) hdivlt (k - 1) (by omega) hdiv
      simp
      omega

theorem digitsToNat_replicate_zero (k : Nat) :
    digitsToNat (List.replicate k '0') = 0 := by
  induction k with
  | zero => rfl
  | succ k ih =>
    simp only [List.replicate_succ, digitsToNat, List.foldl_cons]
    have : 10 * 0 + digitVal '0' = 0 := by decide
    rw [this]
    exact ih

theorem digitsToNat_zeros_prefix (k : Nat) (A : List Char) :
    digitsToNat (List.replicate k '0' ++ A) = digitsToNat A := by
  rw [digitsToNat_append, digitsToNat_replicate_zero]
  rfl

theorem pad4_length (d : Nat) (hd : d < 10000) : (pad4 d).length = 4 := by
  have h := natChars_length_le d 4 (by omega) (by omega)
  simp [pad4]
  omega

theorem pad4_digits (d : Nat) : ∀ c ∈ pad4 d, c.isDigit = true := by
  intro c hc
  rcases List.mem_append.mp hc with h | h
  · rw [List.eq_of_mem_replicate h]
    decide
  · exact natChars_digits d c h

theorem digitsToNat_pad4 (d : Nat) : digitsToNat (pad4 d) = d := by
  rw [pad4, digitsToNat_zeros_prefix, digitsToNat_natChars]

theorem nomDecimalValue_pad4 (d : Nat) (hd : d < 10000) :
    nomDecimalValue (some (pad4 d)) = d := by
  simp only [nomDecimalValue, pad4_length d hd]
  rw [if_pos (by omega)]
  rw [show (4 : Nat) = (pad4 d).length from (pad4_length d hd).symm, List.take_length,
    digitsToNat_pad4]

theorem not_plusminus_of_digit {c : Char} (h : c.isDigit = true) :
    (c = '+' || c = '-') = false := by
  have h1 : ¬ c = '+' := fun e => by subst e; exact absurd h (by decide)
  have h2 : ¬ c = '-' := fun e => by subst e; exact absurd h (by decide)
  simp [h1, h2]

theorem nomSign_digit {c : Char} (h : c.isDigit = true) (rest : List Char) :
    nomSign (c :: rest) = (none, c :: rest) := by
  simp [nomSign, not_plusminus_of_digit h]

/-- The shape of the tail that follows the integer digit run of a rendered amount:
empty (decimal 0), or a dot followed by a nonempty all-digit run worth `dval`. -/
def SuffixShape (S : List Char) (dval : Nat) : Prop :=
  (S = [] ∧ dval = 0) ∨
    (∃ D, S = '.' :: D ∧ (∀ c ∈ D, c.isDigit = true) ∧ D ≠ [] ∧
      nomDecimalValue (some D) = dval)

theorem suffix_head_not_digit {S : List Char} {dval : Nat} (h : SuffixShape S dval) :
    ∀ c, S.head? = some c → c.isDigit = false := by
  rcases h with ⟨rfl, _⟩ | ⟨D, rfl, _, _, _⟩
  · intro c hc
    simp at hc
  · intro c hc
    simp at hc
    subst hc
    decide

theorem parse_noSign (allowNeg : Bool) (opts : ZzParseOptions) (A S : List Char)
    (dval : Nat) (hA : ∀ c ∈ A, c.isDigit = true) (hne : A ≠ [])
    (hlen : A.length ≤ opts.zz_amount_max_size) (hS : SuffixShape S dval) :
    parse_zzamount_inner allowNeg opts (A ++ S) = .ok ([], (digitsToNat A : Int), dval) := by
  obtain ⟨a, A', rfl⟩ : ∃ a A', A = a :: A' := by
    cases A with
    | nil => exact absurd rfl hne
    | cons a l => exact ⟨a, l, rfl⟩
  have hint : takeUpTo (opts.zz_amount_max_size + 1) Char.isDigit ((a :: A') ++ S)
      = a :: A' :=
    takeUpTo_append_all (a :: A') (opts.zz_amount_max_size + 1) S hA
      (by simp at hlen ⊢; omega) (suffix_head_not_digit hS)
  have hsg : nomSign ((a :: A') ++ S) = (none, (a :: A') ++ S) := by
    rw [List.cons_append]
    exact nomSign_digit (hA a (List.mem_cons_self a A')) (A' ++ S)
  have hdrop : ((a :: A') ++ S).drop (a :: A').length = S := List.drop_left (a :: A') S
  simp only [parse_zzamount_inner, hsg, hint, hdrop]
  rw [if_neg (by simp), if_neg (by simp at hlen ⊢; omega)]
  rcases hS with ⟨rfl, rfl⟩ | ⟨D, rfl, hD, hDne, hdv⟩
  · simp [nomDecimalSplit, nomDecimalValue]
  · have hdec : nomDecimalSplit ('.' :: D) = (some D, []) := by
      simp only [nomDecimalSplit, takeWhile_eq_self_of_all hD]
      have hem : D.isEmpty = false := by
        cases D with
        | nil => exact absurd rfl hDne
        | cons x l => rfl
      simp [hem, List.drop_length]
    simp only [hdec]
    simp [hdv]

theorem parse_withNeg (opts : ZzParseOptions) (A S : List Char)
    (dval : Nat) (hA : ∀ c ∈ A, c.isDigit = true) (hne : A ≠ [])
    (hlen : A.length ≤ opts.zz_amount_max_size) (hS : SuffixShape S dval) :
    parse_zzamount_inner true opts ('-' :: (A ++ S)) =
      .ok ([], -(digitsToNat A : Int), dval) := by
  obtain ⟨a, A', rfl⟩ : ∃ a A', A = a :: A' := by
    cases A with
    | nil => exact absurd rfl hne
    | cons a l => exact ⟨a, l, rfl⟩
  have hint : takeUpTo (opts.zz_amount_max_size + 1) Char.isDigit ((a :: A') ++ S)
      = a :: A' :=
    takeUpTo_append_all (a :: A') (opts.zz_amount_max_size + 1) S hA
      (by simp at hlen ⊢; omega) (suffix_head_not_digit hS)
  have hsg : nomSign ('-' :: ((a :: A') ++ S)) = (some '-', (a :: A') ++ S) := rfl
  have hdrop : ((a :: A') ++ S).drop (a :: A').length = S := List.drop_left (a :: A') S
  simp only [parse_zzamount_inner, hsg, hint, hdrop]
  rw [if_neg (by simp), if_neg (by simp at hlen ⊢; omega)]
  rcases hS with ⟨rfl, rfl⟩ | ⟨D, rfl, hD, hDne, hdv⟩
  · simp [nomDecimalSplit, nomDecimalValue]
  · have hdec : nomDecimalSplit ('.' :: D) = (some D, []) := by
      simp only [nomDecimalSplit, takeWhile_eq_self_of_all hD]
      have hem : D.isEmpty = false := by
        cases D with
        | nil => exact absurd rfl hDne
        | cons x l => rfl
      simp [hem, List.drop_length]
    simp only [hdec]
    simp [hdv]

/-- C8 (amended): for every pair the constructor accepts (fractional units below
10000), if the decimal rendering of the integer part's magnitude fits within
`zz_amount_max_size` digits, then parsing the `Display` rendering with the signed
amount grammar succeeds, consumes the whole string, and returns the original pair. -/
theorem claim_C8_display_parse_roundtrip (opts : ZzParseOptions) (i : Int) (d : Nat)
    (hd : d < 10000) (hlen : (natChars i.natAbs).length ≤ opts.zz_amount_max_size) :
    parse_zzamount_inner true opts (displayChars ⟨i, d⟩) = .ok ([], i, d) := by
  have hAdig := natChars_digits i.natAbs
  have hAne := natChars_ne_nil i.natAbs
  have hSempty : SuffixShape [] 0 := Or.inl ⟨rfl, rfl⟩
  have hSdot : d ≠ 0 → SuffixShape ('.' :: pad4 d) d := fun _ =>
    Or.inr ⟨pad4 d, rfl, pad4_digits d, (by
      have h4 := pad4_length d hd
      intro hcon
      rw [hcon] at h4
      simp at h4), nomDecimalValue_pad4 d hd⟩
  by_cases hi : i < 0
  · have hic : intChars i = '-' :: natChars i.natAbs := by
      rw [intChars, if_pos hi]
    have hval : -((i.natAbs : Nat) : Int) = i := by omega
    by_cases hd0 : d = 0
    · subst hd0
      rw [show displayChars ⟨i, 0⟩ = '-' :: (natChars i.natAbs ++ []) by
        simp [displayChars, hic]]
      rw [parse_withNeg opts (natChars i.natAbs) [] 0 hAdig hAne hlen hSempty,
        digitsToNat_natChars, hval]
    · rw [show displayChars ⟨i, d⟩ = '-' :: (natChars i.natAbs ++ ('.' :: pad4 d)) by
        simp [displayChars, hd0, hic]]
      rw [parse_withNeg opts (natChars i.natAbs) ('.' :: pad4 d) d hAdig hAne hlen
        (hSdot hd0), digitsToNat_natChars, hval]
  · have hic : intChars i = natChars i.natAbs := by
      rw [intChars, if_neg hi]
      congr 1
      omega
    have hval : ((i.natAbs : Nat) : Int) = i := by omega
    by_cases hd0 : d = 0
    · subst hd0
      rw [show displayChars ⟨i, 0⟩ = natChars i.natAbs ++ [] by simp [displayChars, hic]]
      rw [parse_noSign true opts (natChars i.natAbs) [] 0 hAdig hAne hlen hSempty,
        digitsToNat_natChars, hval]
    · rw [show displayChars ⟨i, d⟩ = natChars i.natAbs ++ ('.' :: pad4 d) by
        simp [displayChars, hd0, hic]]
      rw [parse_noSign true opts (natChars i.natAbs) ('.' :: pad4 d) d hAdig hAne hlen
        (hSdot hd0), digitsToNat_natChars, hval]

theorem claim_C8_display_parse_roundtrip_witness :
    parse_zzamount_inner true defaultOpts (displayChars ⟨-2, 5000⟩) =
      .ok ([], -2, 5000) :=
  claim_C8_display_parse_roundtrip defaultOpts (-2) 5000 (by decide) (by decide)

set_option maxRecDepth 20000 in
/-- C8 counterexample: the pair `(10^200, 0)` is accepted by the constructor, yet
under the run's default parse options its `Display` rendering (201 digits) exceeds the
200-digit integer limit and the grammar rejects it with a hard `Failure` instead of
round-tripping. -/
theorem claim_C8_counterexample :
    (ZzIAmount.new (10 ^ 200) 0).isSome = true ∧
    parse_zzamount_inner true defaultOpts (displayChars ⟨10 ^ 200, 0⟩) =
      .error .failure :=
  ⟨rfl, rfl⟩

/-! ### The streaming loop (`src/parsers/csv_parser.rs`) -/

/-- `CsvParserResult`. -/
inductive CsvParserResult where
  | Parsed (tx : ZzTx)
  | Failed
  | MissingRequiredField
  | ContainsExcessiveFields (tx : ZzTx)
deriving DecidableEq, Repr

/-- `CsvZzTxParserTrait`: a row parser with mutable state `σ`, threaded explicitly. -/
structure CsvZzTxParserImpl (σ : Type) where
  deserialize_headers : σ → ZzParseOptions → List Char → σ × Bool
  deserialize_row : σ → ZzParseOptions → List Char → σ × CsvParserResult

/-- The mutable state of `csv_zztx_parser_streaming`: parser state, the `tail` buffer,
the `is_first` header flag, the transaction map and the per-client balance table
(the `vec![None; u16::MAX + 1]`, modelled as a function). -/
structure LoopSt (σ : Type) where
  ps : σ
  tail : List Char
  is_first : Bool
  tx_map : TxMap
  client_balance_map : Nat → Option ZzClientBalance

/-- The `process_tx` closure: run `insert_transaction` against the current balance; on
an effect, `get_or_insert_with` a fresh zero balance and apply the effect (a panic in
`process_tx_effect` aborts the run). -/
def processTxSt {σ : Type} (st : LoopSt σ) (zztx : ZzTx) : Except String (LoopSt σ) :=
  let client_id := zztx.client_id
  match insert_transaction st.tx_map zztx (st.client_balance_map client_id) with
  | (none, tm) => .ok { st with tx_map := tm }
  | (some effect, tm) =>
    let bal := (st.client_balance_map client_id).getD
      ⟨client_id, ZzIAmount.zero, ZzIAmount.zero, ZzIAmount.zero, false⟩
    match process_tx_effect bal effect with
    | .error e => .error e
    | .ok bal' =>
      let newMap : Nat → Option ZzClientBalance :=
        fun i => if i = client_id then some bal' else st.client_balance_map i
      .ok { st with tx_map := tm, client_balance_map := newMap }

/-- Rust's `split_once('\n')`. -/
def splitOnceNL : List Char → Option (List Char × List Char)
  | [] => none
  | c :: rest =>
    if c = '\n' then some ([], rest)
    else (splitOnceNL rest).map (fun p => (c :: p.1, p.2))

/-- Rust's `split('\n')` (always at least one piece; a trailing terminator yields a
final empty piece). -/
def splitOnNL : List Char → List (List Char)
  | [] => [[]]
  | c :: rest =>
    if c = '\n' then [] :: splitOnNL rest
    else
      match splitOnNL rest with
      | [] => [[c]]
      | h :: t => (c :: h) :: t

/-- The `while let Some(row) = it.next()` loop over
`once(segmented).chain(rest.split('\n'))`: every row is width-checked; the last
element replaces `tail`; every non-last element is a complete row routed through the
strictness-policy dispatch and, when a record is produced, `process_tx`. -/
def dispatchRows {σ : Type} (P : CsvZzTxParserImpl σ) (opts : ZzParseOptions) :
    List (List Char) → LoopSt σ → Except String (LoopSt σ)
  | [], st => .ok st
  | row :: rest, st =>
    if opts.max_line_width < row.length then .error "Row too big"
    else
      match rest with
      | [] => .ok { st with tail := row }
      | _ :: _ =>
        let pr := P.deserialize_row st.ps opts row
        let st1 := { st with ps := pr.1 }
        match pr.2 with
        | .Parsed zztx =>
          match processTxSt st1 zztx with
          | .error e => .error e
          | .ok st2 => dispatchRows P opts rest st2
        | .MissingRequiredField =>
          if opts.on_missing_field.fail then .error "Failed to parse csv"
          else dispatchRows P opts rest st1
        | .ContainsExcessiveFields zztx =>
          match opts.on_excessive_field with
          | .Fail => .error "Failed to parse csv"
          | .Allow =>
            match processTxSt st1 zztx with
            | .error e => .error e
            | .ok st2 => dispatchRows P opts rest st2
          | .Ignore => dispatchRows P opts rest st1
        | .Failed =>
          if opts.on_parse_error.fail then .error "Failed to parse csv"
          else dispatchRows P opts rest st1

/-- The per-chunk body after the header handling: split once on the terminator, append
the first segment to `tail`, then run the row loop on
`once(segmented).chain(rest.split('\n'))`. -/
def mainScan {σ : Type} (P : CsvZzTxParserImpl σ) (opts : ZzParseOptions)
    (st : LoopSt σ) (buf : List Char) : Except String (LoopSt σ) :=
  let seg := (splitOnceNL buf).getD (buf, [])
  let st1 := { st with tail := st.tail ++ seg.1 }
  dispatchRows P opts (seg.1 :: splitOnNL seg.2) st1

/-- One iteration of the chunk loop: on the first chunk holding a terminator, probe the
first row as a header (consuming it only if recognized); a first chunk with no
terminator is appended whole to `tail` (width-checked) and the header decision is
deferred. -/
def processChunk {σ : Type} (P : CsvZzTxParserImpl σ) (opts : ZzParseOptions)
    (st : LoopSt σ) (chunk : List Char) : Except String (LoopSt σ) :=
  if st.is_first then
    match splitOnceNL chunk with
    | none =>
      let tail1 := st.tail ++ chunk
      if opts.max_line_width < tail1.length then .error "Row too big"
      else .ok { st with tail := tail1 }
    | some (first_row, rest) =>
      let hp := P.deserialize_headers st.ps opts first_row
      let st1 := { st with ps := hp.1, is_first := false }
      if hp.2 then mainScan P opts st1 rest else mainScan P opts st1 chunk
  else mainScan P opts st chunk

/-- The chunk loop (`loop { file.read_at(..) .. }`): the chunk list is the sequence of
nonempty reads; the loop ends at the first zero-size read. -/
def streamChunks {σ : Type} (P : CsvZzTxParserImpl σ) (opts : ZzParseOptions) :
    List (List Char) → LoopSt σ → Except String (LoopSt σ)
  | [], st => .ok st
  | chunk :: more, st =>
    match processChunk P opts st chunk with
    | .error e => .error e
    | .ok st1 => streamChunks P opts more st1

/-- The end-of-stream handling: a remaining nonempty `tail` is width-checked and
dispatched as a final row through the same strictness policies. -/
def finalTail {σ : Type} (P : CsvZzTxParserImpl σ) (opts : ZzParseOptions)
    (st : LoopSt σ) : Except String (LoopSt σ) :=
  if st.tail.isEmpty then .ok st
  else if opts.max_line_width < st.tail.length then .error "Row too big"
  else
    let pr := P.deserialize_row st.ps opts st.tail
    let st1 := { st with ps := pr.1 }
    match pr.2 with
    | .Parsed zztx => processTxSt st1 zztx
    | .ContainsExcessiveFields zztx =>
      match opts.on_excessive_field with
      | .Fail => .error "Failed to parse csv"
      | .Allow => processTxSt st1 zztx
      | .Ignore => .ok st1
    | .MissingRequiredField =>
      if opts.on_missing_field.fail then .error "Failed to parse csv"
      else .ok st1
    | .Failed =>
      if opts.on_parse_error.fail then .error "Failed to parse csv"
      else .ok st1

/-- `for client in client_balance_map.iter_mut().flatten() { client.compute_total(); }` -/
def totalize (bm : Nat → Option ZzClientBalance) : Nat → Option ZzClientBalance :=
  fun i => (bm i).map compute_total

/-- Run the whole streaming loop from a given state: every chunk, then the final tail
row, then the batch `compute_total` pass. -/
def zzRunFrom {σ : Type} (P : CsvZzTxParserImpl σ) (opts : ZzParseOptions)
    (st : LoopSt σ) (chunks : List (List Char)) : Except String (LoopSt σ) :=
  match streamChunks P opts chunks st with
  | .error e => .error e
  | .ok st1 =>
    match finalTail P opts st1 with
    | .error e => .error e
    | .ok st2 => .ok { st2 with client_balance_map := totalize st2.client_balance_map }

/-- The initial loop state: empty tail, header probe pending, empty transaction map,
all 65536 balance slots `None`. -/
def initSt {σ : Type} (s0 : σ) : LoopSt σ :=
  ⟨s0, [], true, [], fun _ => none⟩

/-- `csv_zztx_parser_streaming`: the whole pass, returning the final balance table. -/
def csv_zztx_parser_streaming {σ : Type} (P : CsvZzTxParserImpl σ)
    (opts : ZzParseOptions) (s0 : σ) (chunks : List (List Char)) :
    Except String (Nat → Option ZzClientBalance) :=
  (zzRunFrom P opts (initSt s0) chunks).map (·.client_balance_map)

/-- The rows actually written to the output sheet: `iter().filter_map(|x| x.as_ref())`
over the 65536-slot table. -/
def outputRows (bm : Nat → Option ZzClientBalance) : List ZzClientBalance :=
  (List.range 65536).filterMap bm

/-! ### C2 — chunk-boundary row reconstruction -/

/-- An observing parser instance: it records every row handed to the dispatcher and
returns a record (an entry-less dispute) that the state machine always rejects. -/
def recorderImpl : CsvZzTxParserImpl (List (List Char)) where
  deserialize_headers := fun s _ _ => (s, false)
  deserialize_row := fun s _ row => (s ++ [row], .Parsed ⟨.Dispute, 0, 0⟩)

/-- The sequence of rows the dispatcher received during a run, or `none` on abort. -/
def runDispatched (chunks : List (List Char)) : Option (List (List Char)) :=
  match zzRunFrom recorderImpl defaultOpts (initSt []) chunks with
  | .ok st => some st.ps
  | .error _ => none

/-- Modelled from the spec: the logical rows of a byte stream — split the whole stream
on the terminator; a trailing terminator contributes no empty final row, while a
nonempty final partial row is a row of its own. -/
def specRows (stream : List Char) : List (List Char) :=
  let l := splitOnNL stream
  if l.getLast? = some [] then l.dropLast else l

/-- A table parser recognizing the two deposit rows of the C2 balance scenario. -/
def depositTableImpl : CsvZzTxParserImpl Unit where
  deserialize_headers := fun s _ _ => (s, false)
  deserialize_row := fun s _ row =>
    if row = "deposit,1,1,5".toList then (s, .Parsed ⟨.Deposit ⟨5, 0⟩, 1, 1⟩)
    else if row = "deposit,1,2,7".toList then (s, .Parsed ⟨.Deposit ⟨7, 0⟩, 1, 2⟩)
    else (s, .Failed)

/-- Parse options with all three policies set to `Ignore`. -/
def ignoreOpts : ZzParseOptions := ⟨200, .Ignore, .Ignore, .Ignore, 4096⟩

/-- Client 1's final available balance for a run over the deposit scenario. -/
def runAvailableAt1 (chunks : List (List Char)) : Option (Option ZzIAmount) :=
  match csv_zztx_parser_streaming depositTableImpl ignoreOpts () chunks with
  | .ok bm => some ((bm 1).map (·.available))
  | .error _ => none

/-- C2 evaluated at the failing input: the same stream delivered whole dispatches the
rows `["a", "bcd"]` (the split of the stream), but delivered as chunks
`["a\nbc", "d\n"]` it dispatches `["a", "d"]` — the carried-over tail `"bc"` is
appended to the `tail` buffer yet never prepended to the dispatched row.  The final
balance table depends on the boundary: two deposits worth 5 and 7 yield available 12
when delivered whole but 5 when the second row is split across chunks. -/
theorem claim_C2_chunk_boundary_dependence :
    ("a\nbc".toList ++ "d\n".toList = "a\nbcd\n".toList) ∧
    runDispatched ["a\nbcd\n".toList] = some ["a".toList, "bcd".toList] ∧
    runDispatched ["a\nbc".toList, "d\n".toList] = some ["a".toList, "d".toList] ∧
    specRows "a\nbcd\n".toList = ["a".toList, "bcd".toList] ∧
    (["a".toList, "d".toList] : List (List Char)) ≠ ["a".toList, "bcd".toList] ∧
    ("deposit,1,1,5\ndeposit,1".toList ++ ",2,7\n".toList
      = "deposit,1,1,5\ndeposit,1,2,7\n".toList) ∧
    runAvailableAt1 ["deposit,1,1,5\ndeposit,1,2,7\n".toList] = some (some ⟨12, 0⟩) ∧
    runAvailableAt1 ["deposit,1,1,5\ndeposit,1".toList, ",2,7\n".toList]
      = some (some ⟨5, 0⟩) := by
  refine ⟨rfl, rfl, rfl, rfl, by decide, rfl, rfl, rfl⟩

/-! ### C10 — lazy balance creation -/

/-- A table parser recognizing only the lone withdrawal row of the C10 scenario. -/
def withdrawOnlyImpl : CsvZzTxParserImpl Unit where
  deserialize_headers := fun s _ _ => (s, false)
  deserialize_row := fun s _ row =>
    if row = "withdrawal,1,1,5".toList then (s, .Parsed ⟨.Withdrawal ⟨5, 0⟩, 1, 1⟩)
    else (s, .Failed)

/-- C10: a balance slot flips from `None` to `Some` only when the processed
transaction is addressed to that client and the state machine produced an effect for
it; consequently the run containing only a withdrawal against a never-seen client
(rejected: absent balance) ends with slot 1 still `None` and emits no output row. -/
theorem claim_C10_no_entry_without_effect :
    (∀ {σ : Type} (st : LoopSt σ) (tx : ZzTx) (st' : LoopSt σ) (c : Nat),
      processTxSt st tx = .ok st' →
      st.client_balance_map c = none →
      st'.client_balance_map c ≠ none →
      c = tx.client_id ∧
        (produce_effect (txLookup st.tx_map (tx.client_id, tx.tx_id)) tx
          (st.client_balance_map tx.client_id)).isSome = true) ∧
    (∃ bm, csv_zztx_parser_streaming withdrawOnlyImpl defaultOpts ()
        ["withdrawal,1,1,5\n".toList] = .ok bm ∧
      bm 1 = none ∧ outputRows bm = []) := by
  constructor
  · intro σ st tx st' c h hnone hsome
    unfold processTxSt at h
    dsimp only at h
    cases hpe : produce_effect (txLookup st.tx_map (tx.client_id, tx.tx_id)) tx
        (st.client_balance_map tx.client_id) with
    | none =>
      rw [show insert_transaction st.tx_map tx (st.client_balance_map tx.client_id)
          = (none, st.tx_map) by rw [insert_transaction, hpe]] at h
      simp only at h
      cases h
      exact absurd hnone hsome
    | some pr =>
      obtain ⟨stp, eff⟩ := pr
      rw [show insert_transaction st.tx_map tx (st.client_balance_map tx.client_id)
          = (some eff, txInsert st.tx_map (tx.client_id, tx.tx_id) stp) by
        rw [insert_transaction, hpe]] at h
      simp only at h
      cases hb : process_tx_effect ((st.client_balance_map tx.client_id).getD
          ⟨tx.client_id, ZzIAmount.zero, ZzIAmount.zero, ZzIAmount.zero, false⟩) eff with
      | error e =>
        rw [hb] at h
        cases h
      | ok bal' =>
        rw [hb] at h
        cases h
        by_cases hc : c = tx.client_id
        · exact ⟨hc, rfl⟩
        · exact absurd hnone (by
            simp only [if_neg hc] at hsome
            exact hsome)
  · refine ⟨_, rfl, rfl, ?_⟩
    exact List.filterMap_eq_nil_iff.mpr (fun a _ => rfl)

/-! ### C4 — the locked-account invariant -/

/-- A table parser for the lock scenario: deposit, dispute, chargeback, then a fresh
deposit to the now-locked account. -/
def lockScenarioImpl : CsvZzTxParserImpl Unit where
  deserialize_headers := fun s _ _ => (s, false)
  deserialize_row := fun s _ row =>
    if row = "deposit,1,1,5".toList then (s, .Parsed ⟨.Deposit ⟨5, 0⟩, 1, 1⟩)
    else if row = "dispute,1,1".toList then (s, .Parsed ⟨.Dispute, 1, 1⟩)
    else if row = "chargeback,1,1".toList then (s, .Parsed ⟨.Chargeback, 1, 1⟩)
    else if row = "deposit,1,2,3".toList then (s, .Parsed ⟨.Deposit ⟨3, 0⟩, 1, 2⟩)
    else (s, .Failed)

/-- C4 counterexample: the state machine does **not** refuse to emit effects for a
locked account — a fresh-id deposit against a locked balance still yields an effect,
and the full run (deposit, dispute, chargeback, fresh deposit) consequently aborts on
the ledger's defensive check instead of silently ignoring the deposit. -/
theorem claim_C4_counterexample :
    produce_effect none ⟨.Deposit ⟨3, 0⟩, 1, 2⟩
        (some ⟨1, ⟨0, 0⟩, ⟨0, 0⟩, ⟨0, 0⟩, true⟩) =
      some (.Deposit ⟨3, 0⟩, ⟨⟨3, 0⟩, some true, none, false⟩) ∧
    csv_zztx_parser_streaming lockScenarioImpl defaultOpts ()
        ["deposit,1,1,5\ndispute,1,1\nchargeback,1,1\ndeposit,1,2,3\n".toList] =
      .error "Called process tx effect with locked Balance" :=
  ⟨rfl, rfl⟩

theorem processTxSt_locked_frame {σ : Type} (st : LoopSt σ) (tx : ZzTx)
    (st' : LoopSt σ) (c : Nat) (b : ZzClientBalance)
    (hb : st.client_balance_map c = some b) (hl : b.locked = true)
    (h : processTxSt st tx = .ok st') :
    st'.client_balance_map c = st.client_balance_map c := by
  unfold processTxSt at h
  dsimp only at h
  cases hins : insert_transaction st.tx_map tx (st.client_balance_map tx.client_id) with
  | mk effOpt tm =>
    rw [hins] at h
    cases effOpt with
    | none =>
      dsimp only at h
      cases h
      rfl
    | some eff =>
      dsimp only at h
      by_cases hc : tx.client_id = c
      · subst hc
        rw [hb] at h
        simp only [Option.getD_some] at h
        rw [show process_tx_effect b eff
            = .error "Called process tx effect with locked Balance" by
          unfold process_tx_effect
          rw [if_pos (by rw [hl])]] at h
        cases h
      · cases hpe : process_tx_effect ((st.client_balance_map tx.client_id).getD
            ⟨tx.client_id, ZzIAmount.zero, ZzIAmount.zero, ZzIAmount.zero, false⟩) eff with
        | error e =>
          rw [hpe] at h
          cases h
        | ok bal' =>
          rw [hpe] at h
          dsimp only at h
          cases h
          show (if c = tx.client_id then some bal' else st.client_balance_map c) = _
          rw [if_neg (fun e => hc e.symm)]

theorem dispatchRows_locked_frame {σ : Type} (P : CsvZzTxParserImpl σ)
    (opts : ZzParseOptions) (c : Nat) (b : ZzClientBalance) :
    ∀ (rows : List (List Char)) (st st' : LoopSt σ),
      st.client_balance_map c = some b → b.locked = true →
      dispatchRows P opts rows st = .ok st' →
      st'.client_balance_map c = st.client_balance_map c := by
  intro rows
  induction rows with
  | nil =>
    intro st st' hb hl h
    unfold dispatchRows at h
    cases h
    rfl
  | cons row rest ih =>
    intro st st' hb hl h
    unfold dispatchRows at h
    by_cases hw : opts.max_line_width < row.length
    · rw [if_pos hw] at h
      cases h
    · rw [if_neg hw] at h
      cases rest with
      | nil =>
        cases h
        rfl
      | cons r2 rest2 =>
        dsimp only at h
        cases hres : (P.deserialize_row st.ps opts row).2 with
        | Parsed zztx =>
          rw [hres] at h
          dsimp only at h
          cases hpt : processTxSt { st with ps := (P.deserialize_row st.ps opts row).1 }
              zztx with
          | error e =>
            rw [hpt] at h
            cases h
          | ok st2 =>
            rw [hpt] at h
            have h2 := processTxSt_locked_frame
              { st with ps := (P.deserialize_row st.ps opts row).1 } zztx st2 c b hb hl hpt
            have h3 := ih st2 st' (by rw [h2]; exact hb) hl h
            rw [h3, h2]
        | MissingRequiredField =>
          rw [hres] at h
          dsimp only at h
          by_cases hf : opts.on_missing_field.fail
          · rw [if_pos hf] at h
            cases h
          · rw [if_neg hf] at h
            exact ih { st with ps := (P.deserialize_row st.ps opts row).1 } st' hb hl h
        | ContainsExcessiveFields zztx =>
          rw [hres] at h
          dsimp only at h
          cases hef : opts.on_excessive_field with
          | Fail =>
            rw [hef] at h
            dsimp only at h
            cases h
          | Allow =>
            rw [hef] at h
            dsimp only at h
            cases hpt : processTxSt { st with ps := (P.deserialize_row st.ps opts row).1 }
                zztx with
            | error e =>
              rw [hpt] at h
              cases h
            | ok st2 =>
              rw [hpt] at h
              have h2 := processTxSt_locked_frame
                { st with ps := (P.deserialize_row st.ps opts row).1 } zztx st2 c b hb hl hpt
              have h3 := ih st2 st' (by rw [h2]; exact hb) hl h
              rw [h3, h2]
          | Ignore =>
            rw [hef] at h
            dsimp only at h
            exact ih { st with ps := (P.deserialize_row st.ps opts row).1 } st' hb hl h
        | Failed =>
          rw [hres] at h
          dsimp only at h
          by_cases hf : opts.on_parse_error.fail
          · rw [if_pos hf] at h
            cases h
          · rw [if_neg hf] at h
            exact ih { st with ps := (P.deserialize_row st.ps opts row).1 } st' hb hl h

theorem mainScan_locked_frame {σ : Type} (P : CsvZzTxParserImpl σ)
    (opts : ZzParseOptions) (st : LoopSt σ) (buf : List Char) (st' : LoopSt σ)
    (c : Nat) (b : ZzClientBalance)
    (hb : st.client_balance_map c = some b) (hl : b.locked = true)
    (h : mainScan P opts st buf = .ok st') :
    st'.client_balance_map c = st.client_balance_map c := by
  unfold mainScan at h
  dsimp only at h
  exact dispatchRows_locked_frame P opts c b
    (((splitOnceNL buf).getD (buf, [])).1 :: splitOnNL ((splitOnceNL buf).getD (buf, [])).2)
    { st with tail := st.tail ++ ((splitOnceNL buf).getD (buf, [])).1 } st' hb hl h

theorem processChunk_locked_frame {σ : Type} (P : CsvZzTxParserImpl σ)
    (opts : ZzParseOptions) (st : LoopSt σ) (chunk : List Char) (st' : LoopSt σ)
    (c : Nat) (b : ZzClientBalance)
    (hb : st.client_balance_map c = some b) (hl : b.locked = true)
    (h : processChunk P opts st chunk = .ok st') :
    st'.client_balance_map c = st.client_balance_map c := by
  unfold processChunk at h
  by_cases hfst : st.is_first
  · rw [if_pos hfst] at h
    cases hsp : splitOnceNL chunk with
    | none =>
      rw [hsp] at h
      dsimp only at h
      by_cases hw : opts.max_line_width < (st.tail ++ chunk).length
      · rw [if_pos hw] at h
        cases h
      · rw [if_neg hw] at h
        cases h
        rfl
    | some pr =>
      obtain ⟨first_row, rest⟩ := pr
      rw [hsp] at h
      dsimp only at h
      by_cases hhd : (P.deserialize_headers st.ps opts first_row).2
      · rw [if_pos hhd] at h
        exact mainScan_locked_frame P opts
          { st with ps := (P.deserialize_headers st.ps opts first_row).1, is_first := false }
          rest st' c b hb hl h
      · rw [if_neg hhd] at h
        exact mainScan_locked_frame P opts
          { st with ps := (P.deserialize_headers st.ps opts first_row).1, is_first := false }
          chunk st' c b hb hl h
  · rw [if_neg hfst] at h
    exact mainScan_locked_frame P opts st chunk st' c b hb hl h

theorem streamChunks_locked_frame {σ : Type} (P : CsvZzTxParserImpl σ)
    (opts : ZzParseOptions) (c : Nat) (b : ZzClientBalance) :
    ∀ (chunks : List (List Char)) (st st' : LoopSt σ),
      st.client_balance_map c = some b → b.locked = true →
      streamChunks P opts chunks st = .ok st' →
      st'.client_balance_map c = st.client_balance_map c := by
  intro chunks
  induction chunks with
  | nil =>
    intro st st' hb hl h
    cases h
    rfl
  | cons chunk more ih =>
    intro st st' hb hl h
    unfold streamChunks at h
    cases hpc : processChunk P opts st chunk with
    | error e =>
      rw [hpc] at h
      cases h
    | ok st1 =>
      rw [hpc] at h
      have h1 := processChunk_locked_frame P opts st chunk st1 c b hb hl hpc
      have h2 := ih st1 st' (by rw [h1]; exact hb) hl h
      rw [h2, h1]

theorem finalTail_locked_frame {σ : Type} (P : CsvZzTxParserImpl σ)
    (opts : ZzParseOptions) (st : LoopSt σ) (st' : LoopSt σ)
    (c : Nat) (b : ZzClientBalance)
    (hb : st.client_balance_map c = some b) (hl : b.locked = true)
    (h : finalTail P opts st = .ok st') :
    st'.client_balance_map c = st.client_balance_map c := by
  unfold finalTail at h
  by_cases hem : st.tail.isEmpty
  · rw [if_pos hem] at h
    cases h
    rfl
  · rw [if_neg hem] at h
    by_cases hw : opts.max_line_width < st.tail.length
    · rw [if_pos hw] at h
      cases h
    · rw [if_neg hw] at h
      dsimp only at h
      cases hres : (P.deserialize_row st.ps opts st.tail).2 with
      | Parsed zztx =>
        rw [hres] at h
        dsimp only at h
        exact processTxSt_locked_frame
          { st with ps := (P.deserialize_row st.ps opts st.tail).1 } zztx st' c b hb hl h
      | ContainsExcessiveFields zztx =>
        rw [hres] at h
        dsimp only at h
        cases hef : opts.on_excessive_field with
        | Fail =>
          rw [hef] at h
          dsimp only at h
          cases h
        | Allow =>
          rw [hef] at h
          dsimp only at h
          exact processTxSt_locked_frame
            { st with ps := (P.deserialize_row st.ps opts st.tail).1 } zztx st' c b hb hl h
        | Ignore =>
          rw [hef] at h
          dsimp only at h
          cases h
          rfl
      | MissingRequiredField =>
        rw [hres] at h
        dsimp only at h
        by_cases hf : opts.on_missing_field.fail
        · rw [if_pos hf] at h
          cases h
        · rw [if_neg hf] at h
          cases h
          rfl
      | Failed =>
        rw [hres] at h
        dsimp only at h
        by_cases hf : opts.on_parse_error.fail
        · rw [if_pos hf] at h
          cases h
        · rw [if_neg hf] at h
          cases h
          rfl

/-- C4 (amended): once a slot is locked, no later part of the run ever changes its
`available`, `held` or `locked` fields again — any successfully completing run carries
the balance through unchanged (only `total` is recomputed by the final batch pass),
because same-entry dispute/resolve/chargeback are refused and any fresh effect
addressed to the locked account aborts the run in the ledger's defensive check before
mutating. -/
theorem claim_C4_locked_account_frozen {σ : Type} (P : CsvZzTxParserImpl σ)
    (opts : ZzParseOptions) (st : LoopSt σ) (chunks : List (List Char))
    (st' : LoopSt σ) (c : Nat) (b : ZzClientBalance)
    (hb : st.client_balance_map c = some b) (hl : b.locked = true)
    (h : zzRunFrom P opts st chunks = .ok st') :
    st'.client_balance_map c = some (compute_total b) ∧
    ∃ b', st'.client_balance_map c = some b' ∧ b'.available = b.available ∧
      b'.held = b.held ∧ b'.locked = true := by
  unfold zzRunFrom at h
  cases hsc : streamChunks P opts chunks st with
  | error e =>
    rw [hsc] at h
    cases h
  | ok st1 =>
    rw [hsc] at h
    dsimp only at h
    cases hft : finalTail P opts st1 with
    | error e =>
      rw [hft] at h
      dsimp only at h
      cases h
    | ok st2 =>
      rw [hft] at h
      dsimp only at h
      have h1 := streamChunks_locked_frame P opts c b chunks st st1 hb hl hsc
      have h2 := finalTail_locked_frame P opts st1 st2 c b (by rw [h1]; exact hb) hl hft
      cases h
      have hfin : st2.client_balance_map c = some b := by
        rw [h2, h1]
        exact hb
      refine ⟨?_, compute_total b, ?_, rfl, rfl, ?_⟩
      · show totalize st2.client_balance_map c = _
        rw [totalize, hfin]
        rfl
      · show totalize st2.client_balance_map c = _
        rw [totalize, hfin]
        rfl
      · show b.locked = true
        exact hl

/-- A locked balance and a mid-run state holding it, used to witness the C4 theorem. -/
def lockedBal1 : ZzClientBalance := ⟨1, ⟨2, 0⟩, ⟨0, 0⟩, ⟨0, 0⟩, true⟩

/-- A mid-run loop state whose slot 1 is locked. -/
def lockedSt : LoopSt Unit :=
  ⟨(), [], false, [], fun i => if i = 1 then some lockedBal1 else none⟩

theorem claim_C4_locked_account_frozen_witness :
    (LoopSt.mk () [] false ([] : TxMap)
        (totalize lockedSt.client_balance_map)).client_balance_map 1
      = some (compute_total lockedBal1) ∧
    ∃ b', (LoopSt.mk () [] false ([] : TxMap)
        (totalize lockedSt.client_balance_map)).client_balance_map 1 = some b' ∧
      b'.available = lockedBal1.available ∧ b'.held = lockedBal1.held ∧
      b'.locked = true :=
  claim_C4_locked_account_frozen withdrawOnlyImpl defaultOpts lockedSt []
    (LoopSt.mk () [] false ([] : TxMap) (totalize lockedSt.client_balance_map))
    1 lockedBal1 rfl rfl rfl

theorem claim_C10_no_entry_without_effect_witness :
    (1 : Nat) = 1 ∧
      (produce_effect (txLookup (initSt ()).tx_map (1, 1)) ⟨.Deposit ⟨5, 0⟩, 1, 1⟩
        ((initSt ()).client_balance_map 1)).isSome = true :=
  claim_C10_no_entry_without_effect.1 (initSt ()) ⟨.Deposit ⟨5, 0⟩, 1, 1⟩
    ⟨(), [], true, [((1, 1), .Deposit ⟨5, 0⟩)],
      fun i => if i = 1 then some ⟨1, ⟨5, 0⟩, ⟨0, 0⟩, ⟨0, 0⟩, false⟩ else none⟩
    1 rfl rfl (by decide)
